import Mathlib

/-!
Verification development for the FindImuWorld script
(`src/script/FindImuWorld.py` of ami-iit/bno055_rest_orientation_wrt_ENU).

The numeric part of the script (quaternion averaging and rotation
representation conversions) is embedded over the real numbers; the single
external numeric library call, `np.linalg.svd`, is modelled as an explicit
function parameter `svd : Mat3 → Mat3 × Mat3` returning the factors `U` and
`Vt`, constrained in theorems by the documented contract of an SVD
(orthogonal factors, nonnegative diagonal middle factor, product equal to
the input).  The file-discovery and plotting pipeline is embedded at the
level of file names, column names and written image names.
-/

namespace Imu

/-- Model of a quaternion sample `[w, x, y, z]` (a row of the `(N,4)` array). -/
@[ext]
structure Quat where
  w : ℝ
  x : ℝ
  y : ℝ
  z : ℝ

/-- Model of a 3x3 real matrix (`np.array` of shape `(3,3)`), entry `mIJ` is row `I`, column `J`. -/
@[ext]
structure Mat3 where
  m00 : ℝ
  m01 : ℝ
  m02 : ℝ
  m10 : ℝ
  m11 : ℝ
  m12 : ℝ
  m20 : ℝ
  m21 : ℝ
  m22 : ℝ

namespace Mat3

/-- Matrix product (`@` on 3x3 arrays). -/
def mul (A B : Mat3) : Mat3 where
  m00 := A.m00 * B.m00 + A.m01 * B.m10 + A.m02 * B.m20
  m01 := A.m00 * B.m01 + A.m01 * B.m11 + A.m02 * B.m21
  m02 := A.m00 * B.m02 + A.m01 * B.m12 + A.m02 * B.m22
  m10 := A.m10 * B.m00 + A.m11 * B.m10 + A.m12 * B.m20
  m11 := A.m10 * B.m01 + A.m11 * B.m11 + A.m12 * B.m21
  m12 := A.m10 * B.m02 + A.m11 * B.m12 + A.m12 * B.m22
  m20 := A.m20 * B.m00 + A.m21 * B.m10 + A.m22 * B.m20
  m21 := A.m20 * B.m01 + A.m21 * B.m11 + A.m22 * B.m21
  m22 := A.m20 * B.m02 + A.m21 * B.m12 + A.m22 * B.m22

/-- Identity matrix (`np.eye(3)`). -/
def one : Mat3 := ⟨1, 0, 0, 0, 1, 0, 0, 0, 1⟩

instance : Mul Mat3 := ⟨Mat3.mul⟩

instance : One Mat3 := ⟨Mat3.one⟩

/-- Transpose. -/
def transpose (A : Mat3) : Mat3 :=
  ⟨A.m00, A.m10, A.m20, A.m01, A.m11, A.m21, A.m02, A.m12, A.m22⟩

/-- Determinant of a 3x3 matrix. -/
def det (A : Mat3) : ℝ :=
  A.m00 * (A.m11 * A.m22 - A.m12 * A.m21)
    - A.m01 * (A.m10 * A.m22 - A.m12 * A.m20)
    + A.m02 * (A.m10 * A.m21 - A.m11 * A.m20)

/-- Scalar multiple of a matrix. -/
def smul (k : ℝ) (A : Mat3) : Mat3 :=
  ⟨k * A.m00, k * A.m01, k * A.m02, k * A.m10, k * A.m11, k * A.m12,
   k * A.m20, k * A.m21, k * A.m22⟩

/-- Adjugate (transpose of the cofactor matrix), used to transport
`A * B = 1` to `B * A = 1`. -/
def adj (A : Mat3) : Mat3 where
  m00 := A.m11 * A.m22 - A.m12 * A.m21
  m01 := -(A.m01 * A.m22 - A.m02 * A.m21)
  m02 := A.m01 * A.m12 - A.m02 * A.m11
  m10 := -(A.m10 * A.m22 - A.m12 * A.m20)
  m11 := A.m00 * A.m22 - A.m02 * A.m20
  m12 := -(A.m00 * A.m12 - A.m02 * A.m10)
  m20 := A.m10 * A.m21 - A.m11 * A.m20
  m21 := -(A.m00 * A.m21 - A.m01 * A.m20)
  m22 := A.m00 * A.m11 - A.m01 * A.m10

end Mat3

/-- Four-quadrant arctangent, modelling `np.arctan2(y, x)` (signed zeros of
floating point are not modelled; `atan2 0 0 = 0` as in numpy for `+0.0`). -/
noncomputable def atan2 (y x : ℝ) : ℝ :=
  if 0 < x then Real.arctan (y / x)
  else if x < 0 then
    (if 0 ≤ y then Real.arctan (y / x) + Real.pi else Real.arctan (y / x) - Real.pi)
  else
    (if 0 < y then Real.pi / 2 else if y < 0 then -(Real.pi / 2) else 0)

/-- Model of `np.copysign x s` for real (non signed-zero) `s`: the magnitude of
`x` carrying the sign of `s`. -/
noncomputable def copysign (x s : ℝ) : ℝ :=
  if s < 0 then -|x| else |x|

/-- Squared euclidean norm `w*w + x*x + y*y + z*z` of a quaternion. -/
def quatNormSq (q : Quat) : ℝ := q.w * q.w + q.x * q.x + q.y * q.y + q.z * q.z

/-- Euclidean norm of a quaternion (`np.linalg.norm` on a 4-vector, and the
`np.sqrt(w*w + x*x + y*y + z*z)` of `quat_to_rotation_matrix`). -/
noncomputable def quatNorm (q : Quat) : ℝ := Real.sqrt (quatNormSq q)

/-- Componentwise division of a quaternion by a scalar (`q / n` on a 4-vector). -/
noncomputable def quatDivide (q : Quat) (n : ℝ) : Quat :=
  ⟨q.w / n, q.x / n, q.y / n, q.z / n⟩

/-- Componentwise negation (`-q`). -/
def quatNeg (q : Quat) : Quat := ⟨-q.w, -q.x, -q.y, -q.z⟩

/-- Dot product of two quaternions (`np.dot` on 4-vectors). -/
def quatDot (a b : Quat) : ℝ := a.w * b.w + a.x * b.x + a.y * b.y + a.z * b.z

/-- Componentwise sum of a list of quaternions. -/
def sumQuat (l : List Quat) : Quat :=
  l.foldr (fun a b => ⟨a.w + b.w, a.x + b.x, a.y + b.y, a.z + b.z⟩) ⟨0, 0, 0, 0⟩

/-- The rotation-matrix formula of `quat_to_rotation_matrix` applied to the
already-normalized components `(w, x, y, z)` (source lines 30-34). -/
def rawRotation (w x y z : ℝ) : Mat3 where
  m00 := 1 - 2 * (y * y + z * z)
  m01 := 2 * (x * y - w * z)
  m02 := 2 * (x * z + w * y)
  m10 := 2 * (x * y + w * z)
  m11 := 1 - 2 * (x * x + z * z)
  m12 := 2 * (y * z - w * x)
  m20 := 2 * (x * z - w * y)
  m21 := 2 * (y * z + w * x)
  m22 := 1 - 2 * (x * x + y * y)

/-- Embedding of `quat_to_rotation_matrix` (source lines 11-36): normalize the
quaternion, falling back to the identity when the norm is below `1e-12`, then
apply the standard formula. -/
noncomputable def quat_to_rotation_matrix (q : Quat) : Mat3 :=
  let norm := quatNorm q
  if norm < 1e-12 then 1
  else
    let q2 := quatDivide q norm
    rawRotation q2.w q2.x q2.y q2.z

/-- Embedding of `rotation_matrix_to_rpy_extrinsic` (source lines 38-65),
returning `(roll, pitch, yaw)`. -/
noncomputable def rotation_matrix_to_rpy_extrinsic (R : Mat3) : ℝ × ℝ × ℝ :=
  let sin_pitch := -R.m20
  if 1 ≤ |sin_pitch| then
    if sin_pitch < 0 then (0, copysign (Real.pi / 2) sin_pitch, atan2 (-R.m01) R.m11)
    else (0, copysign (Real.pi / 2) sin_pitch, atan2 R.m01 R.m11)
  else
    (atan2 R.m21 R.m22, Real.arcsin sin_pitch, atan2 R.m10 R.m00)

/-- Embedding of `rotation_matrix_to_rpy_intrinsic` (source lines 67-100),
returning `(roll, pitch, yaw)`. -/
noncomputable def rotation_matrix_to_rpy_intrinsic (R : Mat3) : ℝ × ℝ × ℝ :=
  let sin_pitch := R.m20
  if 1 ≤ |sin_pitch| then
    if 0 < sin_pitch then (0, copysign (Real.pi / 2) sin_pitch, atan2 R.m01 R.m11)
    else (0, copysign (Real.pi / 2) sin_pitch, atan2 (-R.m01) R.m11)
  else
    (atan2 (-R.m21) R.m22, Real.arcsin sin_pitch, atan2 (-R.m10) R.m00)

/-- Elementary rotation about X used by `rpy_to_rotation_matrix` (source lines 114-118). -/
noncomputable def rollMatrix (roll : ℝ) : Mat3 :=
  ⟨1, 0, 0, 0, Real.cos roll, -Real.sin roll, 0, Real.sin roll, Real.cos roll⟩

/-- Elementary rotation about Y used by `rpy_to_rotation_matrix` (source lines 121-125). -/
noncomputable def pitchMatrix (pitch : ℝ) : Mat3 :=
  ⟨Real.cos pitch, 0, Real.sin pitch, 0, 1, 0, -Real.sin pitch, 0, Real.cos pitch⟩

/-- Elementary rotation about Z used by `rpy_to_rotation_matrix` (source lines 128-132). -/
noncomputable def yawMatrix (yaw : ℝ) : Mat3 :=
  ⟨Real.cos yaw, -Real.sin yaw, 0, Real.sin yaw, Real.cos yaw, 0, 0, 0, 1⟩

/-- Embedding of `rpy_to_rotation_matrix` (source lines 102-136):
`R = Rz(yaw) @ Ry(pitch) @ Rx(roll)`. -/
noncomputable def rpy_to_rotation_matrix (roll pitch yaw : ℝ) : Mat3 :=
  yawMatrix yaw * pitchMatrix pitch * rollMatrix roll

/-- Normalization and sign-alignment loop of `compute_mean_rotation`
(source lines 155-166): each quaternion is divided by its norm when the norm
is positive, and then negated when its dot product with the (normalized)
first quaternion is negative.  The loop body at index `i` reads only `qs[i]`
and the pre-computed `q0`, so it is a `map`. -/
noncomputable def alignQuats (qs : List Quat) : List Quat :=
  let q0raw := qs.headD ⟨0, 0, 0, 0⟩
  let n0 := quatNorm q0raw
  let q0 := if 0 < n0 then quatDivide q0raw n0 else q0raw
  qs.map (fun q =>
    let n := quatNorm q
    let q2 := if 0 < n then quatDivide q n else q
    if quatDot q2 q0 < 0 then quatNeg q2 else q2)

/-- Mean, renormalization and conversion steps of `compute_mean_rotation`
(source lines 168-175): arithmetic mean of the aligned quaternions, identity
fallback when the mean norm is below `1e-12`, otherwise conversion of the
renormalized mean quaternion to a matrix. -/
noncomputable def matrixOfAligned (aligned : List Quat) : Mat3 :=
  let q_mean := quatDivide (sumQuat aligned) (aligned.length : ℝ)
  let n_mean := quatNorm q_mean
  if n_mean < 1e-12 then 1
  else quat_to_rotation_matrix (quatDivide q_mean n_mean)

/-- The matrix handed by `compute_mean_rotation` to `np.linalg.svd`
(source lines 151-175, for a nonempty input). -/
noncomputable def meanQuatMatrix (qs : List Quat) : Mat3 :=
  matrixOfAligned (alignQuats qs)

/-- In-place sign flip of the last column, `U[:, -1] *= -1` (source line 181). -/
def flipLastCol (U : Mat3) : Mat3 :=
  ⟨U.m00, U.m01, -U.m02, U.m10, U.m11, -U.m12, U.m20, U.m21, -U.m22⟩

/-- SVD-based re-orthonormalization of `compute_mean_rotation`
(source lines 177-184).  `svd` stands for `np.linalg.svd`, returning the
factors `U` and `Vt` (the singular values are discarded by the source). -/
noncomputable def orthonormalizeSvd (svd : Mat3 → Mat3 × Mat3) (R : Mat3) : Mat3 :=
  let U := (svd R).1
  let Vt := (svd R).2
  let R_ortho := U * Vt
  if R_ortho.det < 0 then flipLastCol U * Vt else R_ortho

/-- Embedding of `compute_mean_rotation` (source lines 138-184), with the
`np.linalg.svd` library call abstracted as the parameter `svd`.  An empty
input returns the identity before any SVD is taken (source lines 152-153). -/
noncomputable def compute_mean_rotation (svd : Mat3 → Mat3 × Mat3) (qs : List Quat) : Mat3 :=
  match qs with
  | [] => 1
  | _ :: _ => orthonormalizeSvd svd (meanQuatMatrix qs)

/-- A matrix is orthogonal (both-sided, as the factors of `np.linalg.svd` are). -/
def IsOrtho (A : Mat3) : Prop :=
  A.transpose * A = 1 ∧ A * A.transpose = 1

/-- A diagonal matrix with nonnegative diagonal, the shape of the middle SVD factor. -/
def IsDiagNN (S : Mat3) : Prop :=
  S.m01 = 0 ∧ S.m02 = 0 ∧ S.m10 = 0 ∧ S.m12 = 0 ∧ S.m20 = 0 ∧ S.m21 = 0 ∧
    0 ≤ S.m00 ∧ 0 ≤ S.m11 ∧ 0 ≤ S.m22

/-- Documented contract of `np.linalg.svd` at the matrix `M`: the returned
factors `U` and `Vt` are orthogonal and `M = U * S * Vt` for a diagonal `S`
with nonnegative entries. -/
def SvdOK (svd : Mat3 → Mat3 × Mat3) (M : Mat3) : Prop :=
  ∃ S : Mat3, IsOrtho (svd M).1 ∧ IsOrtho (svd M).2 ∧ IsDiagNN S ∧
    M = (svd M).1 * S * (svd M).2

/-- A proper rotation: orthonormal with determinant `+1`. -/
def IsRotation (R : Mat3) : Prop :=
  R.transpose * R = 1 ∧ R.det = 1

/-- A constant stand-in for `np.linalg.svd` used in concrete witnesses: it is a
valid SVD of the identity matrix. -/
def svd0 : Mat3 → Mat3 × Mat3 := fun _ => (1, 1)

/-- The zero quaternion, the degenerate input of C10. -/
def zeroQuat : Quat := ⟨0, 0, 0, 0⟩

/-- The identity unit quaternion used in the C5 witness. -/
def e1Quat : Quat := ⟨1, 0, 0, 0⟩

/-- Frobenius distance between two matrices (`np.linalg.norm (A - B, 'fro')`). -/
noncomputable def frobDist (A B : Mat3) : ℝ :=
  Real.sqrt ((A.m00 - B.m00) ^ 2 + (A.m01 - B.m01) ^ 2 + (A.m02 - B.m02) ^ 2 +
    (A.m10 - B.m10) ^ 2 + (A.m11 - B.m11) ^ 2 + (A.m12 - B.m12) ^ 2 +
    (A.m20 - B.m20) ^ 2 + (A.m21 - B.m21) ^ 2 + (A.m22 - B.m22) ^ 2)

/-- Concrete gimbal-locked matrix (third row `(-1, 0, 0)`) for the C6 witness. -/
def gimbalMat : Mat3 := ⟨0, 0, 1, 0, 1, 0, -1, 0, 0⟩

/-- Model of a loaded CSV table (`pandas.DataFrame`): the column headers, and
the quaternion rows that `df[quat_cols].to_numpy()` would extract (the
numeric payload is carried directly; other columns are unused by the core). -/
structure Table where
  cols : List String
  quats : List Quat

/-- Character-level prefix test (`str.startswith`). -/
def strStartsWith (s p : String) : Bool := p.data.isPrefixOf s.data

/-- Character-level suffix test (`str.endswith`, used for the `.csv` part of
the glob). -/
def strEndsWith (s p : String) : Bool := p.data.isSuffixOf s.data

/-- Drop the last `n` characters (`s[:-n]`, used for the extension strip). -/
def strDropRight (s : String) (n : Nat) : String := ⟨s.data.take (s.data.length - n)⟩

/-- Drop the first `n` characters (`s[n:]`). -/
def strDrop (s : String) (n : Nat) : String := ⟨s.data.drop n⟩

/-- Strip leading and trailing whitespace characters from a character list. -/
def trimChars (l : List Char) : List Char :=
  ((l.dropWhile Char.isWhitespace).reverse.dropWhile Char.isWhitespace).reverse

/-- Model of `str.strip()` (ASCII whitespace). -/
def strTrim (s : String) : String := ⟨trimChars s.data⟩

/-- Lexicographic comparison of character lists by code point. -/
def charListLt : List Char → List Char → Bool
  | [], [] => false
  | [], _ :: _ => true
  | _ :: _, [] => false
  | a :: l1, b :: l2 => if a < b then true else if b < a then false else charListLt l1 l2

/-- Code-point lexicographic string order, as Python string comparison and
`sorted` use. -/
def strLt (s t : String) : Bool := charListLt s.data t.data

/-- Whether a file name matches the glob `node*.csv` of `load_node_files`
(source line 197). -/
def matchesNodeCsv (fname : String) : Bool :=
  strStartsWith fname "node" && strEndsWith fname ".csv"

/-- Node name of a matched file: base name without the `.csv` extension
(`os.path.splitext` on a name ending in `.csv`, source line 211). -/
def stripCsvExt (fname : String) : String := strDropRight fname 4

/-- Insertion step of the sort modelling `sorted(glob.glob(...))`. -/
def insertByKey {α : Type} (p : String × α) : List (String × α) → List (String × α)
  | [] => [p]
  | q :: rest => if strLt q.1 p.1 then q :: insertByKey p rest else p :: q :: rest

/-- Sort an association list by its string keys (ascending), modelling
`sorted(...)` on file names and on group names. -/
def sortByKey {α : Type} : List (String × α) → List (String × α)
  | [] => []
  | p :: rest => insertByKey p (sortByKey rest)

/-- The diagnostic of the `FileNotFoundError` raised when no `node*.csv`
file is found (source line 200; the directory path is not modelled). -/
def noInputMsg : String := "Nessun file node*.csv trovato"

/-- Embedding of `load_node_files` (source lines 186-218): the input is the
directory contents as (file name, table) pairs; files matching `node*.csv`
are kept in sorted name order, each becoming one node record named by its
base name, with column headers stripped of whitespace; zero matches raise
the no-input-files error. -/
def load_node_files (files : List (String × Table)) : Except String (List (String × Table)) :=
  let matched := sortByKey (files.filter fun ft => matchesNodeCsv ft.1)
  if matched.isEmpty then Except.error noInputMsg
  else Except.ok (matched.map fun ft =>
    (stripCsvExt ft.1, { cols := ft.2.cols.map (fun col => strTrim col), quats := ft.2.quats }))

/-- Node names produced by the loader (empty on the error path). -/
def loadedNames (files : List (String × Table)) : List String :=
  match load_node_files files with
  | Except.error _ => []
  | Except.ok node_data => node_data.map Prod.fst

/-- The required quaternion columns (source line 231). -/
def quatColNames : List String := ["qw", "qx", "qy", "qz"]

/-- Exact-name check for the four quaternion columns (source line 241). -/
def hasQuatCols (t : Table) : Bool :=
  quatColNames.all fun col => t.cols.contains col

/-- Radians to degrees (`np.degrees`). -/
noncomputable def degreesOf (x : ℝ) : ℝ := x * 180 / Real.pi

/-- Both angle triples, in degrees, derived from one mean rotation
(source lines 260-276). -/
noncomputable def anglesOf (R : Mat3) : (ℝ × ℝ × ℝ) × (ℝ × ℝ × ℝ) :=
  ((degreesOf (rotation_matrix_to_rpy_extrinsic R).1,
    degreesOf (rotation_matrix_to_rpy_extrinsic R).2.1,
    degreesOf (rotation_matrix_to_rpy_extrinsic R).2.2),
   (degreesOf (rotation_matrix_to_rpy_intrinsic R).1,
    degreesOf (rotation_matrix_to_rpy_intrinsic R).2.1,
    degreesOf (rotation_matrix_to_rpy_intrinsic R).2.2))

/-- Embedding of `compute_mean_heading_per_node` (source lines 220-297):
nodes lacking any required quaternion column are skipped; for the others the
first `n_samples` quaternions (`List.take` models `[:min(n_samples, len)]`)
feed `compute_mean_rotation`, and both mappings are extended. -/
noncomputable def compute_mean_heading_per_node (svd : Mat3 → Mat3 × Mat3)
    (node_data : List (String × Table)) (n_samples : Nat) :
    List (String × Mat3) × List (String × ((ℝ × ℝ × ℝ) × (ℝ × ℝ × ℝ))) :=
  match node_data with
  | [] => ([], [])
  | p :: rest =>
    let tail := compute_mean_heading_per_node svd rest n_samples
    if hasQuatCols p.2 then
      let R := compute_mean_rotation svd (p.2.quats.take n_samples)
      ((p.1, R) :: tail.1, (p.1, anglesOf R) :: tail.2)
    else tail

/-- Text before the first underscore (`s.split('_')[0]`). -/
def takeBeforeUnderscore (s : String) : String :=
  ⟨s.data.takeWhile fun ch => ch != '_'⟩

/-- Digits-only value of a character list; `none` when empty or when any
character is not an ASCII digit. -/
def digitsVal (l : List Char) : Option Nat :=
  if l.isEmpty then none
  else
    l.foldl
      (fun acc ch => acc.bind fun n => if ch.isDigit then some (10 * n + (ch.toNat - 48)) else none)
      (some 0)

/-- Model of Python `int(s)` on the strings reaching it here: surrounding
whitespace is stripped, one optional sign is allowed, then one or more ASCII
decimal digits; anything else raises `ValueError` (`none`).  Underscore
digit-grouping is not modelled — the parsed substring never contains an
underscore because it is cut at the first underscore. -/
def parsePyInt (s : String) : Option Int :=
  match (strTrim s).data with
  | [] => none
  | ch :: rest =>
    if ch = '+' then (digitsVal rest).map fun n => (n : Int)
    else if ch = '-' then (digitsVal rest).map fun n => -(n : Int)
    else (digitsVal (ch :: rest)).map fun n => (n : Int)

/-- Node filter of `plot_combined_filtered_nodes` (source lines 329-344):
name starts with `node`, the text up to the first underscore after it parses
as an integer, and that integer lies in `[3, 12]`; parse failures are
silently excluded. -/
def inRangeNode (name : String) : Bool :=
  if strStartsWith name "node" then
    match parsePyInt (takeBeforeUnderscore (strDrop name 4)) with
    | some n => decide (3 ≤ n) && decide (n ≤ 12)
    | none => false
  else false

/-- The rotations retained by the combined filtered plot. -/
def filteredRotations (mean_rotations : List (String × Mat3)) : List (String × Mat3) :=
  mean_rotations.filter fun p => inRangeNode p.1

/-- File name of the combined filtered image (source line 436). -/
def combinedImageName : String := "mean_headings_3d_combined_node3_to_12.png"

/-- Images written by `plot_combined_filtered_nodes` (source lines 320-442):
nothing when no node is in range (early return at line 348), otherwise the
single combined image. -/
def plotCombinedImages (mean_rotations : List (String × Mat3)) : List String :=
  if (filteredRotations mean_rotations).isEmpty then [] else [combinedImageName]

/-- Group key of a node name: text before the first underscore
(source line 312). -/
def groupKey (name : String) : String := takeBeforeUnderscore name

/-- Insert one node into the per-key grouping (dict insertion order). -/
def insertGrouped (k : String) (v : String × Mat3) :
    List (String × List (String × Mat3)) → List (String × List (String × Mat3))
  | [] => [(k, [v])]
  | (g, ms) :: rest =>
    if g = k then (g, ms ++ [v]) :: rest else (g, ms) :: insertGrouped k v rest

/-- Embedding of `group_nodes_by_prefix` (source lines 299-318). -/
def groupNodesByKey (mean_rotations : List (String × Mat3)) :
    List (String × List (String × Mat3)) :=
  mean_rotations.foldl (fun acc p => insertGrouped (groupKey p.1) p acc) []

/-- File name of one per-group image (source line 531). -/
def groupedImageName (g : String) : String := "mean_headings_3d_" ++ g ++ ".png"

/-- Images written by `plot_mean_frames_3d_grouped` (source lines 444-537):
one image per prefix group, iterated in sorted group order. -/
def plotGroupedImages (mean_rotations : List (String × Mat3)) : List String :=
  (sortByKey (groupNodesByKey mean_rotations)).map fun g => groupedImageName g.1

/-- Embedding of `main` (source lines 539-587) at the level of written image
files: loader failure aborts with no images; an empty mean-rotation mapping
aborts with no images; otherwise only `plot_combined_filtered_nodes` is
invoked (source line 580) — `plot_mean_frames_3d_grouped` is never called. -/
noncomputable def mainImages (svd : Mat3 → Mat3 × Mat3)
    (files : List (String × Table)) : List String :=
  match load_node_files files with
  | Except.error _ => []
  | Except.ok node_data =>
    let res := compute_mean_heading_per_node svd node_data 100
    if res.1.isEmpty then [] else plotCombinedImages res.1

/-- State-passing translation of `compute_mean_rotation` for the aliasing
claim: `heap` holds every live array, the argument is passed as an index
`i`, `np.array(quaternions, dtype=float)` allocates a fresh copy at index
`heap.length`, and the in-place normalization loop (source lines 160-166)
updates only that fresh cell. -/
noncomputable def compute_mean_rotation_heap (svd : Mat3 → Mat3 × Mat3)
    (heap : List (List Quat)) (i : Nat) : List (List Quat) × Mat3 :=
  match heap.getD i [] with
  | [] => (heap ++ [heap.getD i []], 1)
  | q :: rest =>
    ((heap ++ [heap.getD i []]).set heap.length (alignQuats (q :: rest)),
      orthonormalizeSvd svd (matrixOfAligned (alignQuats (q :: rest))))

/-- An empty table (no columns, no rows) used in loader scenarios. -/
def emptyTable : Table := ⟨[], []⟩

/-- The C4 directory scenario: `node3.csv`, `node10_1.csv`, `nodeX.csv`. -/
def c4Files : List (String × Table) :=
  [("node3.csv", emptyTable), ("node10_1.csv", emptyTable), ("nodeX.csv", emptyTable)]

/-- A table holding the four quaternion columns and one identity sample. -/
def goodTable : Table := ⟨["qw", "qx", "qy", "qz"], [e1Quat]⟩

/-- A single-node directory whose one node yields a mean rotation. -/
def c3Files : List (String × Table) := [("node3.csv", goodTable)]

/-- Concrete node data for the C7 witness: one node with all four columns,
one without. -/
def c7Nodes : List (String × Table) := [("nodeA", goodTable), ("nodeB", emptyTable)]

namespace Mat3

theorem mul_def (A B : Mat3) : A * B = A.mul B := rfl

theorem one_def : (1 : Mat3) = Mat3.one := rfl

theorem mat_mul_assoc (A B C : Mat3) : A * B * C = A * (B * C) := by
  simp only [mul_def, mul]
  ext <;> ring

theorem mat_one_mul (A : Mat3) : 1 * A = A := by
  simp only [mul_def, one_def, mul, one]
  ext <;> ring

theorem mat_mul_one (A : Mat3) : A * 1 = A := by
  simp only [mul_def, one_def, mul, one]
  ext <;> ring

theorem transpose_mul (A B : Mat3) : (A * B).transpose = B.transpose * A.transpose := by
  simp only [mul_def, mul, transpose]
  ext <;> ring

theorem transpose_one : (1 : Mat3).transpose = 1 := by
  simp only [one_def, one, transpose]

theorem det_mul (A B : Mat3) : (A * B).det = A.det * B.det := by
  simp only [mul_def, mul, det]
  ring

theorem det_transpose (A : Mat3) : A.transpose.det = A.det := by
  simp only [transpose, det]
  ring

theorem det_one : (1 : Mat3).det = 1 := by
  simp only [one_def, one, det]
  norm_num

theorem mul_adj (A : Mat3) : A * A.adj = Mat3.smul A.det 1 := by
  simp only [mul_def, mul, adj, smul, one_def, one, det]
  ext <;> ring

theorem adj_mul (A : Mat3) : A.adj * A = Mat3.smul A.det 1 := by
  simp only [mul_def, mul, adj, smul, one_def, one, det]
  ext <;> ring

theorem smul_mul (k : ℝ) (A B : Mat3) : Mat3.smul k A * B = Mat3.smul k (A * B) := by
  simp only [mul_def, mul, smul]
  ext <;> ring

theorem mul_smul (k : ℝ) (A B : Mat3) : A * Mat3.smul k B = Mat3.smul k (A * B) := by
  simp only [mul_def, mul, smul]
  ext <;> ring

theorem smul_cancel {k : ℝ} (hk : k ≠ 0) {A B : Mat3}
    (h : Mat3.smul k A = Mat3.smul k B) : A = B := by
  have h9 := Mat3.ext_iff.mp h
  simp only [smul] at h9
  obtain ⟨e1, e2, e3, e4, e5, e6, e7, e8, e9⟩ := h9
  ext <;> exact mul_left_cancel₀ hk (by assumption)

theorem mul_eq_one_comm {A B : Mat3} (h : A * B = 1) : B * A = 1 := by
  have hdet : A.det * B.det = 1 := by
    rw [← det_mul, h, det_one]
  have hA0 : A.det ≠ 0 := left_ne_zero_of_mul_eq_one hdet
  have hB : Mat3.smul A.det B = A.adj := by
    have h1 : A.adj * (A * B) = A.adj * 1 := by rw [h]
    rw [mat_mul_one, ← mat_mul_assoc, adj_mul, smul_mul, mat_one_mul] at h1
    exact h1
  have h2 : Mat3.smul A.det (B * A) = Mat3.smul A.det (1 : Mat3) := by
    calc Mat3.smul A.det (B * A) = Mat3.smul A.det B * A := (smul_mul _ _ _).symm
      _ = A.adj * A := by rw [hB]
      _ = Mat3.smul A.det 1 := adj_mul A
  exact smul_cancel hA0 h2

end Mat3

theorem sin_cos_atan2 (y x r : ℝ) (hr : 0 < r) (h : x ^ 2 + y ^ 2 = r ^ 2) :
    Real.sin (atan2 y x) = y / r ∧ Real.cos (atan2 y x) = x / r := by
  have hrne : r ≠ 0 := ne_of_gt hr
  rcases lt_trichotomy x 0 with hx | hx | hx
  · have hxne : x ≠ 0 := ne_of_lt hx
    have hnx : (0 : ℝ) < -x := by linarith
    have hsq : 1 + (y / x) ^ 2 = (r / -x) ^ 2 := by
      field_simp
      linear_combination h
    have hsqrt : Real.sqrt (1 + (y / x) ^ 2) = r / -x := by
      rw [hsq, Real.sqrt_sq (le_of_lt (div_pos hr hnx))]
    have hs : Real.sin (Real.arctan (y / x)) = -(y / r) := by
      rw [Real.sin_arctan, hsqrt, div_div_eq_mul_div, mul_neg, div_mul_cancel₀ y hxne, neg_div]
    have hc : Real.cos (Real.arctan (y / x)) = -(x / r) := by
      rw [Real.cos_arctan, hsqrt, one_div_div, neg_div]
    have hnotpos : ¬0 < x := by linarith
    unfold atan2
    rw [if_neg hnotpos, if_pos hx]
    by_cases hy : 0 ≤ y
    · rw [if_pos hy, Real.sin_add_pi, Real.cos_add_pi, hs, hc]
      constructor <;> ring
    · rw [if_neg hy, Real.sin_sub_pi, Real.cos_sub_pi, hs, hc]
      constructor <;> ring
  · subst hx
    have hy2 : y ^ 2 = r ^ 2 := by linear_combination h
    have hyr : (y - r) * (y + r) = 0 := by linear_combination hy2
    unfold atan2
    rcases mul_eq_zero.mp hyr with h0 | h0
    · have hyval : y = r := by linarith
      rw [if_neg (lt_irrefl 0), if_neg (lt_irrefl 0), if_pos (by linarith : (0 : ℝ) < y)]
      rw [Real.sin_pi_div_two, Real.cos_pi_div_two, hyval]
      constructor
      · rw [div_self hrne]
      · rw [zero_div]
    · have hyval : y = -r := by linarith
      have hyneg : y < 0 := by linarith
      rw [if_neg (lt_irrefl 0), if_neg (lt_irrefl 0), if_neg (by linarith : ¬(0 : ℝ) < y),
        if_pos hyneg, Real.sin_neg, Real.cos_neg, Real.sin_pi_div_two, Real.cos_pi_div_two,
        hyval]
      constructor
      · rw [neg_div, div_self hrne]
      · rw [zero_div]
  · have hxne : x ≠ 0 := ne_of_gt hx
    have hsq : 1 + (y / x) ^ 2 = (r / x) ^ 2 := by
      field_simp
      linear_combination h
    have hsqrt : Real.sqrt (1 + (y / x) ^ 2) = r / x := by
      rw [hsq, Real.sqrt_sq (le_of_lt (div_pos hr hx))]
    unfold atan2
    rw [if_pos hx, Real.sin_arctan, Real.cos_arctan, hsqrt]
    constructor
    · field_simp
    · rw [one_div_div]

theorem isOrtho_mul {A B : Mat3} (hA : IsOrtho A) (hB : IsOrtho B) : IsOrtho (A * B) := by
  constructor
  · calc (A * B).transpose * (A * B) = B.transpose * (A.transpose * A * B) := by
          rw [Mat3.transpose_mul, Mat3.mat_mul_assoc, Mat3.mat_mul_assoc]
    _ = B.transpose * B := by rw [hA.1, Mat3.mat_one_mul]
    _ = 1 := hB.1
  · calc (A * B) * (A * B).transpose = A * (B * B.transpose * A.transpose) := by
          rw [Mat3.transpose_mul, Mat3.mat_mul_assoc, Mat3.mat_mul_assoc]
    _ = A * A.transpose := by rw [hB.2, Mat3.mat_one_mul]
    _ = 1 := hA.2

theorem isOrtho_det_sq {A : Mat3} (hA : IsOrtho A) : A.det * A.det = 1 := by
  have h := congrArg Mat3.det hA.1
  rwa [Mat3.det_mul, Mat3.det_transpose, Mat3.det_one] at h

theorem isOrtho_flipLastCol {U : Mat3} (hU : IsOrtho U) : IsOrtho (flipLastCol U) := by
  have hflip : flipLastCol U = U * ⟨1, 0, 0, 0, 1, 0, 0, 0, -1⟩ := by
    simp only [Mat3.mul_def, Mat3.mul, flipLastCol]
    ext <;> ring
  have hD : IsOrtho (⟨1, 0, 0, 0, 1, 0, 0, 0, -1⟩ : Mat3) := by
    constructor <;> (simp only [Mat3.mul_def, Mat3.mul, Mat3.transpose, Mat3.one_def, Mat3.one]
                     ext <;> norm_num)
  rw [hflip]
  exact isOrtho_mul hU hD

theorem det_flipLastCol (U : Mat3) : (flipLastCol U).det = -U.det := by
  simp only [flipLastCol, Mat3.det]
  ring

/-- Core property behind C2: whatever matrix reaches the SVD step, the
re-orthonormalized output is a proper rotation as soon as the SVD factors
are orthogonal. -/
theorem orthonormalizeSvd_isRotation (svd : Mat3 → Mat3 × Mat3) (R : Mat3)
    (h : SvdOK svd R) : IsRotation (orthonormalizeSvd svd R) := by
  obtain ⟨S, hU, hVt, _hS, _hfact⟩ := h
  set U := (svd R).1 with hUdef
  set Vt := (svd R).2 with hVdef
  have hUV : IsOrtho (U * Vt) := isOrtho_mul hU hVt
  have hdet2 : (U * Vt).det * (U * Vt).det = 1 := isOrtho_det_sq hUV
  unfold orthonormalizeSvd
  by_cases hneg : (U * Vt).det < 0
  · have hdet : (U * Vt).det = -1 := by
      rcases mul_self_eq_one_iff.mp hdet2 with h1 | h1
      · exfalso; rw [h1] at hneg; exact absurd hneg (by norm_num)
      · exact h1
    rw [if_pos (by rw [← hUdef, ← hVdef]; exact hneg)]
    constructor
    · exact isOrtho_mul (isOrtho_flipLastCol hU) hVt |>.1
    · rw [Mat3.det_mul, det_flipLastCol, neg_mul, ← Mat3.det_mul, hdet]
      norm_num
  · have hdet : (U * Vt).det = 1 := by
      rcases mul_self_eq_one_iff.mp hdet2 with h1 | h1
      · exact h1
      · exfalso; rw [h1] at hneg; exact absurd (by norm_num : (-1 : ℝ) < 0) hneg
    rw [if_neg (by rw [← hUdef, ← hVdef]; exact hneg)]
    exact ⟨hUV.1, hdet⟩

/-- When the matrix reaching the SVD step is already a proper rotation (the
case in exact arithmetic), re-orthonormalization returns it unchanged. -/
theorem orthonormalizeSvd_eq_self (svd : Mat3 → Mat3 × Mat3) (M : Mat3)
    (hM : IsRotation M) (h : SvdOK svd M) : orthonormalizeSvd svd M = M := by
  obtain ⟨S, hU, hVt, hS, hfact⟩ := h
  set U := (svd M).1 with hUdef
  set Vt := (svd M).2 with hVdef
  have hMtM : M.transpose * M = 1 := hM.1
  have hStS : S.transpose * S = 1 := by
    have h1 : Vt.transpose * (S.transpose * (U.transpose * U) * S) * Vt = 1 := by
      have : (U * S * Vt).transpose * (U * S * Vt) = 1 := by rw [← hfact]; exact hMtM
      calc Vt.transpose * (S.transpose * (U.transpose * U) * S) * Vt
          = (U * S * Vt).transpose * (U * S * Vt) := by
            rw [Mat3.transpose_mul, Mat3.transpose_mul]
            simp only [Mat3.mat_mul_assoc]
      _ = 1 := this
    have h2 : Vt * (Vt.transpose * (S.transpose * (U.transpose * U) * S) * Vt) * Vt.transpose
        = Vt * 1 * Vt.transpose := by rw [h1]
    rw [Mat3.mat_mul_one] at h2
    calc S.transpose * S
        = 1 * (S.transpose * (U.transpose * U) * S) * 1 := by
          rw [hU.1, Mat3.mat_mul_one, Mat3.mat_one_mul, Mat3.mat_mul_one]
    _ = (Vt * Vt.transpose) * (S.transpose * (U.transpose * U) * S) * (Vt * Vt.transpose) := by
          rw [hVt.2]
    _ = Vt * (Vt.transpose * (S.transpose * (U.transpose * U) * S) * Vt) * Vt.transpose := by
          simp only [Mat3.mat_mul_assoc]
    _ = Vt * Vt.transpose := h2
    _ = 1 := hVt.2
  have hSone : S = 1 := by
    obtain ⟨h01, h02, h10, h12, h20, h21, h00, h11, h22⟩ := hS
    have e9 := Mat3.ext_iff.mp hStS
    simp only [Mat3.mul_def, Mat3.mul, Mat3.transpose, Mat3.one_def, Mat3.one,
      h01, h02, h10, h12, h20, h21] at e9
    obtain ⟨e00, _, _, _, e11, _, _, _, e22⟩ := e9
    have s00 : S.m00 = 1 := by
      have : S.m00 * S.m00 = 1 := by linarith [e00]
      rcases mul_self_eq_one_iff.mp this with h | h
      · exact h
      · nlinarith
    have s11 : S.m11 = 1 := by
      have : S.m11 * S.m11 = 1 := by linarith [e11]
      rcases mul_self_eq_one_iff.mp this with h | h
      · exact h
      · nlinarith
    have s22 : S.m22 = 1 := by
      have : S.m22 * S.m22 = 1 := by linarith [e22]
      rcases mul_self_eq_one_iff.mp this with h | h
      · exact h
      · nlinarith
    ext <;> simp [h01, h02, h10, h12, h20, h21, s00, s11, s22, Mat3.one_def, Mat3.one]
  have hMUV : M = U * Vt := by
    rw [hfact, hSone, Mat3.mat_mul_one]
  simp only [orthonormalizeSvd]
  rw [← hUdef, ← hVdef, ← hMUV, hM.2, if_neg (by norm_num : ¬(1 : ℝ) < 0)]

theorem m20_one : Mat3.m20 1 = 0 := rfl

theorem isOrtho_one : IsOrtho (1 : Mat3) := by
  constructor <;> rw [Mat3.transpose_one, Mat3.mat_one_mul]

theorem isRotation_one : IsRotation (1 : Mat3) :=
  ⟨by rw [Mat3.transpose_one, Mat3.mat_one_mul], Mat3.det_one⟩

theorem svd0_ok_one : SvdOK svd0 (1 : Mat3) := by
  refine ⟨1, isOrtho_one, isOrtho_one, ?_, ?_⟩
  · exact ⟨rfl, rfl, rfl, rfl, rfl, rfl, zero_le_one, zero_le_one, zero_le_one⟩
  · show (1 : Mat3) = 1 * 1 * 1
    rw [Mat3.mat_mul_one, Mat3.mat_mul_one]

theorem meanQuatMatrix_nil : meanQuatMatrix [] = 1 := by
  have hsum : sumQuat [] = ⟨0, 0, 0, 0⟩ := rfl
  have halign : alignQuats [] = [] := rfl
  rw [meanQuatMatrix, halign, matrixOfAligned]
  simp only [hsum, List.length_nil, Nat.cast_zero, quatDivide, quatNorm, quatNormSq]
  norm_num

/-- C2: for every input sequence of quaternions (noisy, non-unit or zero
entries included), the matrix returned by `compute_mean_rotation` is a proper
rotation — orthonormal with determinant `+1` — assuming `np.linalg.svd`
meets its contract on the matrix handed to it. -/
theorem compute_mean_rotation_isRotation (svd : Mat3 → Mat3 × Mat3) (qs : List Quat)
    (h : SvdOK svd (meanQuatMatrix qs)) : IsRotation (compute_mean_rotation svd qs) := by
  cases qs with
  | nil => exact isRotation_one
  | cons q rest => exact orthonormalizeSvd_isRotation svd _ h

/-- Witness for C2 at the concrete input `[]` with the constant SVD stand-in. -/
theorem compute_mean_rotation_isRotation_witness :
    SvdOK svd0 (meanQuatMatrix []) ∧ IsRotation (compute_mean_rotation svd0 []) := by
  have hsvd : SvdOK svd0 (meanQuatMatrix []) := by rw [meanQuatMatrix_nil]; exact svd0_ok_one
  exact ⟨hsvd, compute_mean_rotation_isRotation svd0 [] hsvd⟩

theorem quatNorm_zeroQuat : quatNorm zeroQuat = 0 := by
  simp [quatNorm, quatNormSq, zeroQuat]

theorem alignQuats_zeros (qs : List Quat) (hall : ∀ q ∈ qs, q = zeroQuat) :
    alignQuats qs = qs.map fun _ => zeroQuat := by
  cases qs with
  | nil => rfl
  | cons q rest =>
    have hq : q = zeroQuat := hall q (List.mem_cons_self q rest)
    subst hq
    simp only [alignQuats, List.headD_cons, quatNorm_zeroQuat, lt_self_iff_false, if_false]
    refine List.map_congr_left ?_
    intro a ha
    rw [hall a ha]
    simp [quatNorm, quatNormSq, quatDot, zeroQuat]

theorem sumQuat_const_zero (l : List Quat) :
    sumQuat (l.map fun _ => zeroQuat) = zeroQuat := by
  induction l with
  | nil => rfl
  | cons a l ih =>
    simp only [List.map_cons, sumQuat, List.foldr_cons] at ih ⊢
    rw [ih]
    simp [zeroQuat]

theorem meanQuatMatrix_zeros (qs : List Quat) (hall : ∀ q ∈ qs, q = zeroQuat) :
    meanQuatMatrix qs = 1 := by
  rw [meanQuatMatrix, alignQuats_zeros qs hall, matrixOfAligned, sumQuat_const_zero]
  simp only [quatDivide, zeroQuat, zero_div, quatNorm, quatNormSq]
  norm_num

/-- C10: `compute_mean_rotation` is total on arbitrary real input — each
division is guarded in the source — and a nonempty sequence of all-zero
quaternions takes every guard's fallback branch and returns the identity. -/
theorem compute_mean_rotation_zeros (svd : Mat3 → Mat3 × Mat3) (qs : List Quat)
    (hne : qs ≠ []) (hall : ∀ q ∈ qs, q = zeroQuat)
    (hsvd : SvdOK svd (meanQuatMatrix qs)) : compute_mean_rotation svd qs = 1 := by
  cases qs with
  | nil => exact absurd rfl hne
  | cons q rest =>
    show orthonormalizeSvd svd (meanQuatMatrix (q :: rest)) = 1
    rw [meanQuatMatrix_zeros _ hall] at hsvd ⊢
    exact orthonormalizeSvd_eq_self svd 1 isRotation_one hsvd

/-- Witness for C10 at the concrete input `[zeroQuat]`. -/
theorem compute_mean_rotation_zeros_witness :
    compute_mean_rotation svd0 [zeroQuat] = 1 := by
  have hall : ∀ q ∈ [zeroQuat], q = zeroQuat := by
    intro q hq
    simpa using hq
  refine compute_mean_rotation_zeros svd0 [zeroQuat] (by simp) hall ?_
  rw [meanQuatMatrix_zeros _ hall]
  exact svd0_ok_one

theorem quatNormSq_neg (a : Quat) : quatNormSq (quatNeg a) = quatNormSq a := by
  simp only [quatNormSq, quatNeg]
  ring

theorem quatNorm_neg (a : Quat) : quatNorm (quatNeg a) = quatNorm a := by
  rw [quatNorm, quatNormSq_neg, quatNorm]

theorem quatDivide_one (a : Quat) : quatDivide a 1 = a := by
  ext <;> simp [quatDivide]

theorem quatNorm_of_unit {a : Quat} (h : quatNormSq a = 1) : quatNorm a = 1 := by
  rw [quatNorm, h, Real.sqrt_one]

theorem quatDot_self (a : Quat) : quatDot a a = quatNormSq a := rfl

theorem quatDot_neg_left (a b : Quat) : quatDot (quatNeg a) b = -quatDot a b := by
  simp only [quatDot, quatNeg]
  ring

theorem quatNeg_neg (a : Quat) : quatNeg (quatNeg a) = a := by
  ext <;> simp [quatNeg]

/-- For a unit quaternion the normalization guard of
`quat_to_rotation_matrix` is inert and the raw formula applies. -/
theorem quat_to_rotation_matrix_unit {q : Quat} (hq : quatNormSq q = 1) :
    quat_to_rotation_matrix q = rawRotation q.w q.x q.y q.z := by
  simp only [quat_to_rotation_matrix, quatNorm_of_unit hq]
  rw [if_neg (by norm_num), quatDivide_one]

/-- The rotation formula of a unit quaternion yields a proper rotation. -/
theorem rawRotation_unit_isRotation (q : Quat) (hq : quatNormSq q = 1) :
    IsRotation (rawRotation q.w q.x q.y q.z) := by
  have h : q.w * q.w + q.x * q.x + q.y * q.y + q.z * q.z = 1 := hq
  constructor
  · simp only [Mat3.mul_def, Mat3.mul, Mat3.transpose, rawRotation, Mat3.one_def, Mat3.one]
    ext <;> dsimp only <;>
      first
        | linear_combination (4 * (q.y * q.y + q.z * q.z)) * h
        | linear_combination (4 * (q.x * q.x + q.z * q.z)) * h
        | linear_combination (4 * (q.x * q.x + q.y * q.y)) * h
        | linear_combination (-4 * (q.x * q.y)) * h
        | linear_combination (-4 * (q.x * q.z)) * h
        | linear_combination (-4 * (q.y * q.z)) * h
  · simp only [rawRotation, Mat3.det]
    linear_combination (4 * (q.x * q.x + q.y * q.y + q.z * q.z)) * h

theorem quat_to_rotation_matrix_unit_isRotation {q : Quat} (hq : quatNormSq q = 1) :
    IsRotation (quat_to_rotation_matrix q) := by
  rw [quat_to_rotation_matrix_unit hq]
  exact rawRotation_unit_isRotation q hq

/-- `q` and `-q` produce the same rotation matrix. -/
theorem quat_to_rotation_matrix_neg (q : Quat) :
    quat_to_rotation_matrix (quatNeg q) = quat_to_rotation_matrix q := by
  simp only [quat_to_rotation_matrix, quatNorm_neg]
  by_cases hlt : quatNorm q < 1e-12
  · rw [if_pos hlt, if_pos hlt]
  · rw [if_neg hlt, if_neg hlt]
    ext <;> (simp only [quatDivide, quatNeg, rawRotation] <;> ring)

/-- Under sign alignment, a list of copies of `q` and `-q` (with unit `q`)
collapses to copies of its (normalized) first element. -/
theorem alignQuats_pm (q : Quat) (hq : quatNormSq q = 1) (q1 : Quat) (rest : List Quat)
    (hall : ∀ p ∈ q1 :: rest, p = q ∨ p = quatNeg q) :
    alignQuats (q1 :: rest) = (q1 :: rest).map fun _ => q1 := by
  have hq1 : q1 = q ∨ q1 = quatNeg q := hall q1 (List.mem_cons_self q1 rest)
  have hsq1 : quatNormSq q1 = 1 := by
    rcases hq1 with h | h
    · rw [h]; exact hq
    · rw [h, quatNormSq_neg]; exact hq
  simp only [alignQuats, List.headD_cons, quatNorm_of_unit hsq1, zero_lt_one, if_true,
    quatDivide_one]
  refine List.map_congr_left ?_
  intro p hp
  have hp1 : p = q1 ∨ p = quatNeg q1 := by
    rcases hq1 with h1 | h1 <;> rcases hall p hp with h2 | h2
    · exact Or.inl (h2.trans h1.symm)
    · exact Or.inr (by rw [h2, h1])
    · exact Or.inr (by rw [h2, h1, quatNeg_neg])
    · exact Or.inl (h2.trans h1.symm)
  rcases hp1 with h | h <;> subst h
  · simp only [quatNorm_of_unit hsq1, zero_lt_one, if_true, quatDivide_one, quatDot_self, hsq1]
    rw [if_neg (by norm_num)]
  · simp only [quatNorm_neg, quatNorm_of_unit hsq1, zero_lt_one, if_true, quatDivide_one,
      quatDot_neg_left, quatDot_self, hsq1]
    rw [if_pos (by norm_num), quatNeg_neg]

theorem sumQuat_const (c : Quat) (l : List Quat) :
    sumQuat (l.map fun _ => c) =
      ⟨(l.length : ℝ) * c.w, (l.length : ℝ) * c.x, (l.length : ℝ) * c.y, (l.length : ℝ) * c.z⟩ := by
  induction l with
  | nil =>
    simp only [List.map_nil, List.length_nil, Nat.cast_zero]
    ext <;> simp [sumQuat]
  | cons a l ih =>
    simp only [List.map_cons, sumQuat, List.foldr_cons] at ih ⊢
    rw [ih]
    ext <;> (simp only [List.length_cons, Nat.cast_add, Nat.cast_one] <;> ring)

/-- For a nonempty mixed-sign list of copies of a unit quaternion `q`, the
matrix handed to the SVD is exactly `quat_to_rotation_matrix q`. -/
theorem meanQuatMatrix_pm (q : Quat) (qs : List Quat) (hq : quatNormSq q = 1)
    (hne : qs ≠ []) (hall : ∀ p ∈ qs, p = q ∨ p = quatNeg q) :
    meanQuatMatrix qs = quat_to_rotation_matrix q := by
  cases qs with
  | nil => exact absurd rfl hne
  | cons q1 rest =>
    have hq1 : q1 = q ∨ q1 = quatNeg q := hall q1 (List.mem_cons_self q1 rest)
    have hsq1 : quatNormSq q1 = 1 := by
      rcases hq1 with h | h
      · rw [h]; exact hq
      · rw [h, quatNormSq_neg]; exact hq
    have hn : ((q1 :: rest).length : ℝ) ≠ 0 := by
      simp only [List.length_cons]
      exact_mod_cast Nat.succ_ne_zero rest.length
    have hdiv :
        quatDivide
          ⟨((q1 :: rest).length : ℝ) * q1.w, ((q1 :: rest).length : ℝ) * q1.x,
            ((q1 :: rest).length : ℝ) * q1.y, ((q1 :: rest).length : ℝ) * q1.z⟩
          ((q1 :: rest).length : ℝ) = q1 := by
      ext <;> (simp only [quatDivide] <;> field_simp)
    simp only [meanQuatMatrix, alignQuats_pm q hq q1 rest hall, matrixOfAligned,
      List.length_map, sumQuat_const]
    rw [hdiv, quatNorm_of_unit hsq1, if_neg (by norm_num), quatDivide_one]
    rcases hq1 with h | h
    · rw [h]
    · rw [h, quat_to_rotation_matrix_neg]

/-- C5: for a unit quaternion `q` and a nonempty input of copies of `q` and
`-q`, sign alignment prevents cancellation and `compute_mean_rotation`
returns exactly `quat_to_rotation_matrix q` (assuming the SVD contract). -/
theorem compute_mean_rotation_pm (svd : Mat3 → Mat3 × Mat3) (q : Quat) (qs : List Quat)
    (hq : quatNormSq q = 1) (hne : qs ≠ [])
    (hall : ∀ p ∈ qs, p = q ∨ p = quatNeg q)
    (hsvd : SvdOK svd (meanQuatMatrix qs)) :
    compute_mean_rotation svd qs = quat_to_rotation_matrix q := by
  have hmean : meanQuatMatrix qs = quat_to_rotation_matrix q :=
    meanQuatMatrix_pm q qs hq hne hall
  cases qs with
  | nil => exact absurd rfl hne
  | cons q1 rest =>
    show orthonormalizeSvd svd (meanQuatMatrix (q1 :: rest)) = _
    rw [hmean] at hsvd ⊢
    exact orthonormalizeSvd_eq_self svd _ (quat_to_rotation_matrix_unit_isRotation hq) hsvd

theorem e1Quat_unit : quatNormSq e1Quat = 1 := by
  norm_num [quatNormSq, e1Quat]

theorem quat_to_rotation_matrix_e1 : quat_to_rotation_matrix e1Quat = 1 := by
  rw [quat_to_rotation_matrix_unit e1Quat_unit]
  show rawRotation 1 0 0 0 = 1
  simp only [rawRotation, Mat3.one_def, Mat3.one]
  ext <;> dsimp only <;> norm_num

/-- Witness for C5 at the concrete input `[e1Quat, -e1Quat]`. -/
theorem compute_mean_rotation_pm_witness :
    compute_mean_rotation svd0 [e1Quat, quatNeg e1Quat] = quat_to_rotation_matrix e1Quat := by
  have hall : ∀ p ∈ [e1Quat, quatNeg e1Quat], p = e1Quat ∨ p = quatNeg e1Quat := by
    intro p hp
    simpa using hp
  refine compute_mean_rotation_pm svd0 e1Quat _ e1Quat_unit (by simp) hall ?_
  rw [meanQuatMatrix_pm e1Quat _ e1Quat_unit (by simp) hall, quat_to_rotation_matrix_e1]
  exact svd0_ok_one

/-- Away from gimbal lock, the extrinsic RPY extraction followed by the RPY
reconstruction reproduces a rotation matrix exactly (in exact arithmetic). -/
theorem rpy_round_trip_exact (R : Mat3) (hR : IsRotation R) (hlock : |R.m20| < 1) :
    rpy_to_rotation_matrix (rotation_matrix_to_rpy_extrinsic R).1
      (rotation_matrix_to_rpy_extrinsic R).2.1 (rotation_matrix_to_rpy_extrinsic R).2.2 = R := by
  obtain ⟨hm, hM⟩ := abs_lt.mp hlock
  have hlock2 : ¬1 ≤ |-R.m20| := by
    rw [abs_neg]
    exact not_le.mpr hlock
  simp only [rotation_matrix_to_rpy_extrinsic, hlock2, if_false]
  have hRR : R * R.transpose = 1 := Mat3.mul_eq_one_comm hR.1
  have hcols := Mat3.ext_iff.mp hR.1
  have hrows := Mat3.ext_iff.mp hRR
  simp only [Mat3.mul_def, Mat3.mul, Mat3.transpose, Mat3.one_def, Mat3.one] at hcols hrows
  obtain ⟨hcol0, -, -, -, -, -, -, -, -⟩ := hcols
  obtain ⟨hr0, -, h02, -, hr1, h12, -, -, hr2⟩ := hrows
  have hdet : R.m00 * (R.m11 * R.m22 - R.m12 * R.m21)
      - R.m01 * (R.m10 * R.m22 - R.m12 * R.m20)
      + R.m02 * (R.m10 * R.m21 - R.m11 * R.m20) = 1 := hR.2
  have hd1 : (R.m10 - (R.m21 * R.m02 - R.m22 * R.m01)) ^ 2
      + (R.m11 - (R.m22 * R.m00 - R.m20 * R.m02)) ^ 2
      + (R.m12 - (R.m20 * R.m01 - R.m21 * R.m00)) ^ 2 = 0 := by
    linear_combination hr1 + (R.m00 * R.m00 + R.m01 * R.m01 + R.m02 * R.m02) * hr2 + hr0
      - (R.m00 * R.m20 + R.m01 * R.m21 + R.m02 * R.m22) * h02 - 2 * hdet
  have hx1 : R.m21 * R.m02 - R.m22 * R.m01 = R.m10 := by
    have h1 : (R.m10 - (R.m21 * R.m02 - R.m22 * R.m01)) ^ 2 = 0 := by
      linarith [sq_nonneg (R.m10 - (R.m21 * R.m02 - R.m22 * R.m01)),
        sq_nonneg (R.m11 - (R.m22 * R.m00 - R.m20 * R.m02)),
        sq_nonneg (R.m12 - (R.m20 * R.m01 - R.m21 * R.m00)), hd1]
    have h2 := sq_eq_zero_iff.mp h1
    linarith
  have hd2 : (R.m00 - (R.m11 * R.m22 - R.m12 * R.m21)) ^ 2
      + (R.m01 - (R.m12 * R.m20 - R.m10 * R.m22)) ^ 2
      + (R.m02 - (R.m10 * R.m21 - R.m11 * R.m20)) ^ 2 = 0 := by
    linear_combination hr0 + (R.m10 * R.m10 + R.m11 * R.m11 + R.m12 * R.m12) * hr2 + hr1
      - (R.m10 * R.m20 + R.m11 * R.m21 + R.m12 * R.m22) * h12 - 2 * hdet
  have hx2 : R.m11 * R.m22 - R.m12 * R.m21 = R.m00 := by
    have h1 : (R.m00 - (R.m11 * R.m22 - R.m12 * R.m21)) ^ 2 = 0 := by
      linarith [sq_nonneg (R.m00 - (R.m11 * R.m22 - R.m12 * R.m21)),
        sq_nonneg (R.m01 - (R.m12 * R.m20 - R.m10 * R.m22)),
        sq_nonneg (R.m02 - (R.m10 * R.m21 - R.m11 * R.m20)), hd2]
    have h2 := sq_eq_zero_iff.mp h1
    linarith
  have h20sq : (0 : ℝ) < 1 - R.m20 ^ 2 := by nlinarith [hm, hM]
  have hcpos : (0 : ℝ) < Real.sqrt (1 - R.m20 ^ 2) := Real.sqrt_pos.mpr h20sq
  set c := Real.sqrt (1 - R.m20 ^ 2) with hcdef
  have hc2 : c ^ 2 = 1 - R.m20 ^ 2 := Real.sq_sqrt (le_of_lt h20sq)
  have hcne : c ≠ 0 := ne_of_gt hcpos
  have hroll2 : R.m22 ^ 2 + R.m21 ^ 2 = c ^ 2 := by linear_combination hr2 - hc2
  have hyaw2 : R.m00 ^ 2 + R.m10 ^ 2 = c ^ 2 := by linear_combination hcol0 - hc2
  obtain ⟨hsr, hcr⟩ := sin_cos_atan2 R.m21 R.m22 c hcpos hroll2
  obtain ⟨hsy, hcy⟩ := sin_cos_atan2 R.m10 R.m00 c hcpos hyaw2
  have hsp : Real.sin (Real.arcsin (-R.m20)) = -R.m20 :=
    Real.sin_arcsin (by linarith) (by linarith)
  have hcp : Real.cos (Real.arcsin (-R.m20)) = c := by
    rw [Real.cos_arcsin]
    have hns : (-R.m20) ^ 2 = R.m20 ^ 2 := neg_sq _
    rw [hns, hcdef]
  simp only [rpy_to_rotation_matrix, yawMatrix, pitchMatrix, rollMatrix, Mat3.mul_def, Mat3.mul]
  rw [hsr, hcr, hsy, hcy, hsp, hcp]
  ext <;> dsimp only
  · field_simp
  · field_simp
    linear_combination (R.m01 * c ^ 2) * hr2 - (R.m21 * c ^ 2) * h02
      + (R.m22 * c ^ 2) * hx1 - (R.m01 * c ^ 2) * hc2
  · field_simp
    linear_combination R.m02 * hr2 - R.m22 * h02 - R.m21 * hx1 - R.m02 * hc2
  · field_simp
  · field_simp
    linear_combination R.m11 * hr2 - R.m21 * h12 - R.m22 * hx2 - R.m11 * hc2
  · field_simp
    linear_combination (R.m12 * c ^ 2) * hr2 - (R.m22 * c ^ 2) * h12
      + (R.m21 * c ^ 2) * hx2 - (R.m12 * c ^ 2) * hc2
  · ring
  · field_simp
  · field_simp

/-- C1: for every rotation matrix `R` away from exact gimbal lock
(`|R.m20| < 1`), reconstructing from the extrinsic RPY extraction reproduces
`R` within Frobenius tolerance `0.01` (in fact exactly). -/
theorem rpy_round_trip_frobenius (R : Mat3) (hR : IsRotation R) (hlock : |R.m20| < 1) :
    frobDist
      (rpy_to_rotation_matrix (rotation_matrix_to_rpy_extrinsic R).1
        (rotation_matrix_to_rpy_extrinsic R).2.1 (rotation_matrix_to_rpy_extrinsic R).2.2)
      R ≤ 0.01 := by
  rw [rpy_round_trip_exact R hR hlock]
  have h0 : frobDist R R = 0 := by
    simp [frobDist]
  rw [h0]
  norm_num

/-- Witness for C1 at the identity rotation. -/
theorem rpy_round_trip_frobenius_witness :
    frobDist
      (rpy_to_rotation_matrix (rotation_matrix_to_rpy_extrinsic 1).1
        (rotation_matrix_to_rpy_extrinsic 1).2.1 (rotation_matrix_to_rpy_extrinsic 1).2.2)
      1 ≤ 0.01 :=
  rpy_round_trip_frobenius 1 isRotation_one (by rw [m20_one]; norm_num)

/-- C6: at gimbal lock (`1 ≤ |R.m20|`), the extrinsic extraction returns
roll `0`, pitch `± π/2` carrying the sign of `-R.m20`, and yaw
`atan2 R.m01 R.m11` when `0 < -R.m20`, `atan2 (-R.m01) R.m11` when
`-R.m20 < 0`. -/
theorem rpy_extrinsic_gimbal (R : Mat3) (h : 1 ≤ |R.m20|) :
    rotation_matrix_to_rpy_extrinsic R =
      (0, if 0 < -R.m20 then Real.pi / 2 else -(Real.pi / 2),
        if 0 < -R.m20 then atan2 R.m01 R.m11 else atan2 (-R.m01) R.m11) := by
  have habs : 1 ≤ |-R.m20| := by rwa [abs_neg]
  have hne : -R.m20 ≠ 0 := by
    intro h0
    rw [h0] at habs
    norm_num at habs
  have hpi : |Real.pi / 2| = Real.pi / 2 := abs_of_pos (by positivity)
  simp only [rotation_matrix_to_rpy_extrinsic, copysign]
  rcases lt_or_gt_of_ne hne with hlt | hgt
  · rw [if_pos habs, if_pos hlt, if_pos hlt, if_neg (by linarith), if_neg (by linarith), hpi]
  · rw [if_pos habs, if_neg (by linarith), if_neg (by linarith), if_pos hgt, if_pos hgt, hpi]

/-- Witness for C6 at a concrete gimbal-locked matrix. -/
theorem rpy_extrinsic_gimbal_witness :
    1 ≤ |gimbalMat.m20| ∧
      rotation_matrix_to_rpy_extrinsic gimbalMat =
        (0, if 0 < -gimbalMat.m20 then Real.pi / 2 else -(Real.pi / 2),
          if 0 < -gimbalMat.m20 then atan2 gimbalMat.m01 gimbalMat.m11
          else atan2 (-gimbalMat.m01) gimbalMat.m11) :=
  ⟨by norm_num [gimbalMat], rpy_extrinsic_gimbal gimbalMat (by norm_num [gimbalMat])⟩

theorem getD_append_of_lt {α : Type} (l l2 : List α) (d : α) (j : Nat) (h : j < l.length) :
    (l ++ l2).getD j d = l.getD j d := by
  induction l generalizing j with
  | nil => cases h
  | cons a l ih =>
    cases j with
    | zero => rfl
    | succ j => exact ih j (Nat.lt_of_succ_lt_succ h)

theorem getD_set_ne {α : Type} (l : List α) (m j : Nat) (a d : α) (h : m ≠ j) :
    (l.set m a).getD j d = l.getD j d := by
  induction l generalizing m j with
  | nil => rfl
  | cons b l ih =>
    cases m with
    | zero =>
      cases j with
      | zero => exact absurd rfl h
      | succ j => rfl
    | succ m =>
      cases j with
      | zero => rfl
      | succ j => exact ih m j fun hh => h (by rw [hh])

/-- C9: the state-passing translation of `compute_mean_rotation` leaves every
array already on the heap unchanged — `np.array` copies its input and the
in-place loop mutates only the fresh copy, living at index `heap.length`. -/
theorem compute_mean_rotation_heap_preserves (svd : Mat3 → Mat3 × Mat3)
    (heap : List (List Quat)) (i j : Nat) (hj : j < heap.length) :
    ((compute_mean_rotation_heap svd heap i).1).getD j [] = heap.getD j [] := by
  unfold compute_mean_rotation_heap
  cases heap.getD i [] with
  | nil => exact getD_append_of_lt heap _ [] j hj
  | cons q rest =>
    dsimp only
    rw [getD_set_ne _ _ _ _ _ (Nat.ne_of_gt hj)]
    exact getD_append_of_lt heap _ [] j hj

/-- Witness for C9 at a concrete one-cell heap. -/
theorem compute_mean_rotation_heap_preserves_witness :
    ((compute_mean_rotation_heap svd0 [[e1Quat]] 0).1).getD 0 [] = [[e1Quat]].getD 0 [] :=
  compute_mean_rotation_heap_preserves svd0 [[e1Quat]] 0 0 (by norm_num)

/-- Counterexample to C4: on the three-file directory the loader returns
THREE node records — `nodeX.csv` matches the glob `node*.csv` and is loaded
as record `nodeX`, not excluded — so "exactly two Node Records" is false. -/
theorem load_node_files_c4_counterexample :
    loadedNames c4Files = ["node10_1", "node3", "nodeX"] ∧ "nodeX" ∈ loadedNames c4Files
      ∧ (loadedNames c4Files).length ≠ 2 := by
  decide

/-- C4 as amended: the three-file directory loads exactly the three records
`node10_1`, `node3`, `nodeX` (in sorted file order); a directory with no
matching file (empty, or no `node*.csv` name) raises the no-input-files
error and the run writes no images. -/
theorem load_node_files_amended :
    loadedNames c4Files = ["node10_1", "node3", "nodeX"]
      ∧ load_node_files [] = Except.error noInputMsg
      ∧ mainImages svd0 [] = []
      ∧ load_node_files [("other.csv", emptyTable)] = Except.error noInputMsg
      ∧ mainImages svd0 [("other.csv", emptyTable)] = [] := by
  refine ⟨by decide, rfl, rfl, by rfl, by rfl⟩

/-- Counterexample to C3: a run that computes a mean rotation (for `node3`)
writes only the combined filtered image; the per-group image
`mean_headings_3d_node3.png` is not written, because `main` never calls
`plot_mean_frames_3d_grouped`. -/
theorem mainImages_c3_counterexample :
    mainImages svd0 c3Files = [combinedImageName]
      ∧ (load_node_files c3Files).map
          (fun nd => (compute_mean_heading_per_node svd0 nd 100).1.map Prod.fst)
          = Except.ok ["node3"]
      ∧ groupedImageName "node3" ∉ mainImages svd0 c3Files := by
  refine ⟨by decide, by rfl, by decide⟩

/-- C3 as amended: a run writes at most one image — the combined filtered
image, when some node is in range — and never any per-prefix-group image,
since `main` does not invoke `plot_mean_frames_3d_grouped`. -/
theorem mainImages_cases (svd : Mat3 → Mat3 × Mat3) (files : List (String × Table)) :
    mainImages svd files = [] ∨ mainImages svd files = [combinedImageName] := by
  unfold mainImages
  cases load_node_files files with
  | error e => exact Or.inl rfl
  | ok node_data =>
    dsimp only
    by_cases h : (compute_mean_heading_per_node svd node_data 100).1.isEmpty
    · rw [if_pos h]
      exact Or.inl rfl
    · rw [if_neg h]
      unfold plotCombinedImages
      by_cases h2 : (filteredRotations (compute_mean_heading_per_node svd node_data 100).1).isEmpty
      · rw [if_pos h2]
        exact Or.inl rfl
      · rw [if_neg h2]
        exact Or.inr rfl

theorem cmh_keys (svd : Mat3 → Mat3 × Mat3) (node_data : List (String × Table)) (n : Nat) :
    (compute_mean_heading_per_node svd node_data n).1.map Prod.fst
        = (node_data.filter fun p => hasQuatCols p.2).map Prod.fst
      ∧ (compute_mean_heading_per_node svd node_data n).2.map Prod.fst
        = (node_data.filter fun p => hasQuatCols p.2).map Prod.fst := by
  induction node_data with
  | nil => exact ⟨rfl, rfl⟩
  | cons p rest ih =>
    cases h : hasQuatCols p.2 with
    | false =>
      constructor <;>
        simp only [compute_mean_heading_per_node, h, Bool.false_eq_true, if_false,
          List.filter_cons, ih.1, ih.2]
    | true =>
      constructor <;>
        simp only [compute_mean_heading_per_node, h, if_true, List.filter_cons,
          List.map_cons, ih.1, ih.2]

/-- C7: a node whose table lacks one of the exact columns `qw, qx, qy, qz`
is absent from both output mappings of `compute_mean_heading_per_node`,
while a node having all four is present in both; no node aborts the run
(the embedding is total). -/
theorem compute_mean_heading_membership (svd : Mat3 → Mat3 × Mat3)
    (node_data : List (String × Table)) (n : Nat) (name : String) (t : Table)
    (hmem : (name, t) ∈ node_data) (hnodup : (node_data.map Prod.fst).Nodup) :
    (hasQuatCols t = true →
      name ∈ (compute_mean_heading_per_node svd node_data n).1.map Prod.fst ∧
        name ∈ (compute_mean_heading_per_node svd node_data n).2.map Prod.fst) ∧
    (hasQuatCols t = false →
      name ∉ (compute_mean_heading_per_node svd node_data n).1.map Prod.fst ∧
        name ∉ (compute_mean_heading_per_node svd node_data n).2.map Prod.fst) := by
  obtain ⟨hk1, hk2⟩ := cmh_keys svd node_data n
  rw [hk1, hk2]
  constructor
  · intro hgood
    have hmm : name ∈ (node_data.filter fun p => hasQuatCols p.2).map Prod.fst :=
      List.mem_map.mpr ⟨(name, t), List.mem_filter.mpr ⟨hmem, hgood⟩, rfl⟩
    exact ⟨hmm, hmm⟩
  · intro hbad
    have hnot : name ∉ (node_data.filter fun p => hasQuatCols p.2).map Prod.fst := by
      intro hin
      obtain ⟨p, hpfil, hpfst⟩ := List.mem_map.mp hin
      obtain ⟨hpmem, hpgood⟩ := List.mem_filter.mp hpfil
      have hpeq : p = (name, t) := by
        have hinj := List.inj_on_of_nodup_map hnodup
        exact hinj hpmem hmem hpfst
      rw [hpeq] at hpgood
      rw [hbad] at hpgood
      exact Bool.false_ne_true hpgood
    exact ⟨hnot, hnot⟩

/-- Witness for C7 at `c7Nodes`: the well-formed node appears in both
output mappings. -/
theorem compute_mean_heading_membership_witness :
    "nodeA" ∈ (compute_mean_heading_per_node svd0 c7Nodes 100).1.map Prod.fst ∧
      "nodeA" ∈ (compute_mean_heading_per_node svd0 c7Nodes 100).2.map Prod.fst :=
  (compute_mean_heading_membership svd0 c7Nodes 100 "nodeA" goodTable
    (by simp [c7Nodes]) (by simp [c7Nodes])).1 rfl

theorem inRangeNode_iff (name : String) :
    inRangeNode name = true ↔
      (strStartsWith name "node" = true ∧
        ∃ n : Int, parsePyInt (takeBeforeUnderscore (strDrop name 4)) = some n ∧ 3 ≤ n ∧ n ≤ 12) := by
  unfold inRangeNode
  cases hs : strStartsWith name "node" with
  | false =>
    simp only [Bool.false_eq_true, if_false, false_iff, not_and]
    intro hcon
    exact absurd hcon (by simp)
  | true =>
    rw [if_pos rfl]
    cases hp : parsePyInt (takeBeforeUnderscore (strDrop name 4)) with
    | none => simp
    | some n =>
      simp only [Bool.and_eq_true, decide_eq_true_eq, true_and, Option.some.injEq]
      constructor
      · rintro ⟨h1, h2⟩
        exact ⟨n, rfl, h1, h2⟩
      · rintro ⟨m, hm, h1, h2⟩
        cases hm
        exact ⟨h1, h2⟩

/-- C8: the combined filtered plot retains exactly the nodes whose name
starts with `node` and whose text between `node` and the first underscore
parses (Python `int` semantics) to an integer in `[3, 12]`; all other names
are silently excluded. -/
theorem filteredRotations_membership (mean_rotations : List (String × Mat3)) (name : String) :
    name ∈ (filteredRotations mean_rotations).map Prod.fst ↔
      (name ∈ mean_rotations.map Prod.fst ∧ strStartsWith name "node" = true ∧
        ∃ n : Int, parsePyInt (takeBeforeUnderscore (strDrop name 4)) = some n ∧ 3 ≤ n ∧ n ≤ 12) := by
  constructor
  · intro hin
    obtain ⟨p, hpfil, hpfst⟩ := List.mem_map.mp hin
    obtain ⟨hpmem, hprange⟩ := List.mem_filter.mp hpfil
    rw [hpfst] at hprange
    obtain ⟨h1, h2⟩ := (inRangeNode_iff name).mp hprange
    exact ⟨List.mem_map.mpr ⟨p, hpmem, hpfst⟩, h1, h2⟩
  · rintro ⟨hin, h1, h2⟩
    obtain ⟨p, hpmem, hpfst⟩ := List.mem_map.mp hin
    refine List.mem_map.mpr ⟨p, List.mem_filter.mpr ⟨hpmem, ?_⟩, hpfst⟩
    rw [hpfst]
    exact (inRangeNode_iff name).mpr ⟨h1, h2⟩

end Imu
